import Mathlib

/-!
Shallow embedding of the Paw embedding-provider layer
(resources/palace_openai_patch.py and resources/paw_embedding_hook.py).

Strings from the Python source are modelled as lists of characters so
that the regex-driven URL normalization can be stated precisely.  HTTP
traffic is modelled by passing the outcome of each network attempt in
as data; the embedded functions return, next to the Python result
value, the list of requests issued and the delays slept, so that the
retry, backoff and header behaviour can be stated as theorems.  URLs
are assumed newline-free, so the regex dot matches every character.
-/

namespace Paw

/-- Boolean prefix test on character lists. -/
def isPref : List Char → List Char → Bool
  | [], _ => true
  | _ :: _, [] => false
  | a :: p, b :: s => if a = b then isPref p s else false

/-- Number of positions of a list at which the pattern occurs as a substring. -/
def countOcc (pat : List Char) : List Char → Nat
  | [] => 0
  | c :: rest => (if isPref pat (c :: rest) then 1 else 0) + countOcc pat rest

/-- Python-style substring containment test. -/
def containsSub (pat : List Char) : List Char → Bool
  | [] => pat.isEmpty
  | c :: rest => isPref pat (c :: rest) || containsSub pat rest

/-- The six ASCII whitespace characters stripped by Python str.strip(). -/
def isPySpace (c : Char) : Bool :=
  c == ' ' || c == '\t' || c == '\n' || c == '\r' || c == '\x0b' || c == '\x0c'

/-- Python str.strip(): remove leading and trailing whitespace. -/
def pyStrip (s : List Char) : List Char :=
  ((s.dropWhile isPySpace).reverse.dropWhile isPySpace).reverse

/-- Python x or y for an optional string x: None and the empty string are falsy. -/
def pyOr (x : Option (List Char)) (d : List Char) : List Char :=
  match x with
  | some s => if s = [] then d else s
  | none => d

/-- Python url.rstrip for the slash class: drop trailing slashes. -/
def rstripSlash (s : List Char) : List Char :=
  (s.reverse.dropWhile (· == '/')).reverse

/-- The literal path segment appended to the base endpoint. -/
def embLit : List Char := ['/', 'e', 'm', 'b', 'e', 'd', 'd', 'i', 'n', 'g', 's']

/-- The literal query-parameter name captured from the configured URL. -/
def apiVerLit : List Char := ['a', 'p', 'i', '-', 'v', 'e', 'r', 's', 'i', 'o', 'n', '=']

/-- Whether the stripping regex of line 37 matches at the head of s,
    consuming everything to the end of the string: s is exactly the
    literal segment, or starts with the literal segment followed by a
    question mark (the optional query group then eats the rest). -/
def embMatchAt (s : List Char) : Bool :=
  s == embLit || isPref (embLit ++ ['?']) s

/-- The substitution of line 37: delete from the leftmost match
    position to the end of the string; unchanged when there is no match. -/
def stripEmbSuffix : List Char → List Char
  | [] => []
  | c :: rest => if embMatchAt (c :: rest) then [] else c :: stripEmbSuffix rest

/-- The search regex of line 40 tried at the head of s: the captured
    group, when the literal parameter name is followed by at least one
    character other than an ampersand (the group is greedy). -/
def apiVerAt (s : List Char) : Option (List Char) :=
  if isPref apiVerLit s then
    if (s.drop apiVerLit.length).takeWhile (· != '&') = [] then none
    else some ((s.drop apiVerLit.length).takeWhile (· != '&'))
  else none

/-- The search of line 40: captured group of the leftmost position at
    which the whole regex matches. -/
def findApiVer : List Char → Option (List Char)
  | [] => none
  | c :: rest =>
    match apiVerAt (c :: rest) with
    | some v => some v
    | none => findApiVer rest

/-- Derived base endpoint of lines 31-37: rstrip slashes, then strip a
    trailing /embeddings segment with optional query. -/
def deriveBase (raw : List Char) : List Char :=
  stripEmbSuffix (rstripSlash raw)

/-- Derived api-version of lines 39-42, searched in the slash-stripped
    configured URL. -/
def deriveApiVer (raw : List Char) : Option (List Char) :=
  findApiVer (rstripSlash raw)

/-- The key-value configuration store (config.json) as read by load_config. -/
structure PalaceConfig where
  openai_api_key : Option (List Char)
  openai_base_url : Option (List Char)
  embedding_model : Option (List Char)
  embedding_provider : Option (List Char)
deriving DecidableEq

def defaultBaseUrl : List Char := "https://api.openai.com/v1".toList

def defaultModel : List Char := "text-embedding-3-small".toList

/-- The value returned by _get_openai_config. -/
structure OpenAIConfig where
  api_key : List Char
  base_url : List Char
  model : List Char
  api_version : Option (List Char)
deriving DecidableEq

/-- Lines 27-48 of palace_openai_patch.py. -/
def _get_openai_config (pc : PalaceConfig) : OpenAIConfig :=
  let raw_url := rstripSlash (pc.openai_base_url.getD defaultBaseUrl)
  { api_key := pyOr pc.openai_api_key []
    base_url := stripEmbSuffix raw_url
    model := pyOr pc.embedding_model defaultModel
    api_version := findApiVer raw_url }

def DEFAULT_MAX_EMBEDDING_CHARS : Nat := 8000

/-- The truncation marker appended to over-length text. -/
def truncMarker : List Char := "\n[TRUNCATED FOR EMBEDDING]".toList

/-- Lines 51-61 of palace_openai_patch.py. -/
def _truncate_for_embedding (text : List Char)
    (max_chars : Nat := DEFAULT_MAX_EMBEDDING_CHARS) : List Char :=
  if text.length ≤ max_chars then text
  else text.take (max_chars - truncMarker.length) ++ truncMarker

/-- Lines 101-106: append /embeddings and the optional api-version
    parameter, choosing the separator by looking for a question mark. -/
def buildEndpoint (base_url : List Char) (api_version : Option (List Char)) : List Char :=
  match api_version with
  | none => base_url ++ embLit
  | some v =>
    (base_url ++ embLit) ++
      (if containsSub ['?'] (base_url ++ embLit) then ['&'] else ['?']) ++ apiVerLit ++ v

/-- The request URL that a configured openai_base_url value produces. -/
def requestUrl (raw : List Char) : List Char :=
  buildEndpoint (deriveBase raw) (deriveApiVer raw)

/-- Lines 97 and 195: the managed-cloud host test, a substring check on
    the derived base endpoint. -/
def isAzureHost (base_url : List Char) : Bool :=
  containsSub ("cognitiveservices.azure.com".toList) base_url ||
  containsSub ("openai.azure.com".toList) base_url

/-- The header fields this layer ever sets. -/
structure Headers where
  authorization : Option (List Char)
  api_key_header : Option (List Char)
  content_type : Option (List Char)
deriving DecidableEq

def bearerOf (key : List Char) : List Char := "Bearer ".toList ++ key

/-- Lines 92-99: embedding request headers, bearer token by default,
    header key with the bearer entry deleted on the managed-cloud hosts. -/
def buildHeaders (base_url api_key : List Char) : Headers :=
  if isAzureHost base_url then
    { authorization := none
      api_key_header := some api_key
      content_type := some ("application/json".toList) }
  else
    { authorization := some (bearerOf api_key)
      api_key_header := none
      content_type := some ("application/json".toList) }

/-- One HTTP attempt as observed by get_embedding_openai: a response
    (status, Retry-After header already parsed as a number when present,
    and the data array of the JSON body, each entry being its embedding
    field), or one of the caught request exceptions. -/
inductive AttemptOutcome where
  | resp (status : Nat) (retryAfter : Option ℚ) (data : List (Option (List ℚ)))
  | connErr
  | timedOut
  | reqErr
  | badJson
deriving DecidableEq

def EMBEDDING_MAX_RETRIES : Nat := 3

def EMBEDDING_RETRY_BASE_DELAY : ℚ := 1

/-- EMBEDDING_RETRY_BASE_DELAY times two to the attempt index. -/
def backoffDelay (attempt : Nat) : ℚ := EMBEDDING_RETRY_BASE_DELAY * 2 ^ attempt

/-- What one run of the retry loop produced: the Python return value,
    the timeout of every request issued, and every delay slept. -/
structure LoopResult where
  result : Option (List ℚ)
  timeouts : List Nat
  sleeps : List ℚ
deriving DecidableEq

/-- The retry loop of lines 110-183, driven by the per-attempt outcomes;
    fuel is the number of remaining iterations of the range loop. -/
def retryLoop (out : Nat → AttemptOutcome) : Nat → Nat → LoopResult
  | 0, _ => ⟨none, [], []⟩
  | fuel + 1, attempt =>
    let tmo : Nat := if attempt = 0 then 30 else 60
    let tailSleep : List ℚ :=
      if attempt < EMBEDDING_MAX_RETRIES - 1 then [backoffDelay attempt] else []
    match out attempt with
    | .resp status retryAfter data =>
      if status = 429 then
        let rest := retryLoop out fuel (attempt + 1)
        ⟨rest.result, tmo :: rest.timeouts,
          (retryAfter.getD (backoffDelay attempt)) :: rest.sleeps⟩
      else if status ≠ 200 then
        let rest := retryLoop out fuel (attempt + 1)
        ⟨rest.result, tmo :: rest.timeouts, tailSleep ++ rest.sleeps⟩
      else
        match data.head? with
        | some (some v) =>
          if v = [] then
            let rest := retryLoop out fuel (attempt + 1)
            ⟨rest.result, tmo :: rest.timeouts, tailSleep ++ rest.sleeps⟩
          else ⟨some v, [tmo], []⟩
        | _ =>
          let rest := retryLoop out fuel (attempt + 1)
          ⟨rest.result, tmo :: rest.timeouts, tailSleep ++ rest.sleeps⟩
    | _ =>
      let rest := retryLoop out fuel (attempt + 1)
      ⟨rest.result, tmo :: rest.timeouts, tailSleep ++ rest.sleeps⟩

/-- The JSON body posted to the embeddings endpoint. -/
structure ReqBody where
  model : List Char
  input : List Char
deriving DecidableEq

/-- One POST issued by the embedding client. -/
structure HttpRequest where
  url : List Char
  headers : Headers
  body : ReqBody
  timeoutSecs : Nat
deriving DecidableEq

/-- What one call of get_embedding_openai produced. -/
structure CallResult where
  result : Option (List ℚ)
  requests : List HttpRequest
  sleeps : List ℚ
deriving DecidableEq

/-- Lines 64-183 of palace_openai_patch.py; the Python locals (truncated
    text, loaded config, effective model, headers, endpoint) are inlined. -/
def get_embedding_openai (pc : PalaceConfig) (text : List Char)
    (model : Option (List Char)) (out : Nat → AttemptOutcome) : CallResult :=
  if text = [] ∨ pyStrip text = [] then ⟨none, [], []⟩
  else if (_get_openai_config pc).api_key = [] then ⟨none, [], []⟩
  else
    ⟨(retryLoop out EMBEDDING_MAX_RETRIES 0).result,
      (retryLoop out EMBEDDING_MAX_RETRIES 0).timeouts.map fun t =>
        ⟨buildEndpoint (_get_openai_config pc).base_url (_get_openai_config pc).api_version,
          buildHeaders (_get_openai_config pc).base_url (_get_openai_config pc).api_key,
          ⟨pyOr model (_get_openai_config pc).model, _truncate_for_embedding text⟩, t⟩,
      (retryLoop out EMBEDDING_MAX_RETRIES 0).sleeps⟩

/-- The single health-check attempt: a status, or any request exception. -/
inductive HealthOutcome where
  | resp (status : Nat)
  | netErr
deriving DecidableEq

/-- One GET issued by the health check. -/
structure HealthRequest where
  url : List Char
  headers : Headers
deriving DecidableEq

/-- What one call of is_openai_available produced. -/
structure HealthResult where
  available : Bool
  requests : List HealthRequest
deriving DecidableEq

/-- Lines 192-196: the health-check headers (no content type is set). -/
def healthHeaders (pc : PalaceConfig) : Headers :=
  if isAzureHost (_get_openai_config pc).base_url then
    { authorization := none
      api_key_header := some (_get_openai_config pc).api_key
      content_type := none }
  else
    { authorization := some (bearerOf (_get_openai_config pc).api_key)
      api_key_header := none
      content_type := none }

/-- Lines 197-201: the single GET against the models-listing endpoint. -/
def healthReq (pc : PalaceConfig) : HealthRequest :=
  ⟨(_get_openai_config pc).base_url ++ "/models".toList, healthHeaders pc⟩

/-- Lines 186-205 of palace_openai_patch.py. -/
def is_openai_available (pc : PalaceConfig) (out : HealthOutcome) : HealthResult :=
  if (_get_openai_config pc).api_key = [] then ⟨false, []⟩
  else
    match out with
    | .resp s => ⟨s == 200 || s == 404, [healthReq pc]⟩
    | .netErr => ⟨false, [healthReq pc]⟩

/-- Which backend a router call handed the arguments to. -/
inductive Delegation where
  | remote (text : List Char) (modelArg : Option (List Char))
  | localBackend (text : List Char) (modelArg : Option (List Char))
deriving DecidableEq

/-- Lines 40-51 of paw_embedding_hook.py: load_config runs inside the
    function body, so the configuration is a per-call argument. -/
def patched_get_embedding (pc : PalaceConfig) (text : List Char)
    (modelArg : Option (List Char)) : Delegation :=
  if pc.embedding_provider.getD ("ollama".toList) = "openai".toList then .remote text modelArg
  else .localBackend text modelArg

/-- Two successive router calls, each reading its own configuration. -/
def routerTwoCalls (pc1 pc2 : PalaceConfig) (t1 t2 : List Char)
    (m1 m2 : Option (List Char)) : Delegation × Delegation :=
  (patched_get_embedding pc1 t1 m1, patched_get_embedding pc2 t2 m2)

/-- The functions that can sit in the three patched module slots: the
    originals, or a router wrapper holding the function it saved. -/
inductive FuncVal where
  | origGetEmbedding
  | origIsOllama
  | origGetActive
  | routerGetEmbedding (saved : FuncVal)
  | routerIsOllama (saved : FuncVal)
  | routerGetActive (saved : FuncVal)
deriving DecidableEq

/-- The three attributes of memory_palace.embeddings that the hook rebinds. -/
structure EmbModule where
  get_embedding : FuncVal
  is_ollama_available : FuncVal
  get_active_embedding_model : FuncVal
deriving DecidableEq

/-- The hook module globals (the one-time guard and the saved original)
    together with the patched module. -/
structure HookState where
  patched : Bool
  original_get_embedding : Option FuncVal
  module : EmbModule
deriving DecidableEq

/-- Lines 23-84 of paw_embedding_hook.py. -/
def install_hook (s : HookState) : HookState :=
  if s.patched then s
  else
    { patched := true
      original_get_embedding := some s.module.get_embedding
      module :=
        { get_embedding := .routerGetEmbedding s.module.get_embedding
          is_ollama_available := .routerIsOllama s.module.is_ollama_available
          get_active_embedding_model := .routerGetActive s.module.get_active_embedding_model } }

/-! ## Generic facts about the prefix test and the occurrence counter -/

/-- The prefix test is the take-equality test. -/
theorem isPref_iff_take (p s : List Char) : isPref p s = true ↔ s.take p.length = p := by
  induction p generalizing s with
  | nil => simp [isPref]
  | cons a p ih =>
    cases s with
    | nil => simp [isPref]
    | cons b s =>
      simp only [isPref, List.length_cons, List.take_succ_cons]
      by_cases hab : a = b
      · subst hab
        simp [ih]
      · simp only [if_neg hab, List.cons.injEq]
        constructor
        · intro h
          cases h
        · intro h
          exact absurd h.1.symm hab

/-- A list is a prefix of itself followed by anything. -/
theorem isPref_append_self (p u : List Char) : isPref p (p ++ u) = true := by
  rw [isPref_iff_take, List.take_left]

/-- Prefix tests weaken along an appended pattern. -/
theorem isPref_of_isPref_append {p q s : List Char} (h : isPref (p ++ q) s = true) :
    isPref p s = true := by
  rw [isPref_iff_take] at h ⊢
  have hlen : p.length ≤ (p ++ q).length := by simp
  calc s.take p.length = (s.take (p ++ q).length).take p.length := by
        rw [List.take_take, Nat.min_eq_left hlen]
    _ = (p ++ q).take p.length := by rw [h]
    _ = p := List.take_left p q

/-- A pattern that holds at the head of t ++ w either already holds at the
    head of t, or t is a short proper prefix of the pattern and the start
    of w completes it. -/
theorem isPref_append_cases {p t w : List Char} (h : isPref p (t ++ w) = true) :
    isPref p t = true ∨
      (t.length < p.length ∧ t = p.take t.length ∧
        w.take (p.length - t.length) = p.drop t.length) := by
  rcases Nat.lt_or_ge t.length p.length with hlt | hge
  · right
    rw [isPref_iff_take] at h
    rw [List.take_append_eq_append_take, List.take_of_length_le (Nat.le_of_lt hlt)] at h
    refine ⟨hlt, ?_, ?_⟩
    · conv_rhs => rw [← h]
      rw [List.take_left]
    · conv_rhs => rw [← h]
      rw [List.drop_left]
  · left
    rw [isPref_iff_take] at h ⊢
    rw [List.take_append_of_le_length hge] at h
    exact h

/-- Absence of a border: no proper nonempty prefix of p is also a suffix. -/
def noBorder (p : List Char) : Prop :=
  ∀ m, m < p.length → 0 < m → p.drop m ≠ p.take (p.length - m)

instance (p : List Char) : Decidable (noBorder p) := by
  unfold noBorder
  infer_instance

/-- With a border-free pattern, an occurrence cannot start strictly inside
    a stretch t that precedes a literal copy of the pattern, unless it
    already occurs at the head of t. -/
theorem isPref_append_pat_false {p t u : List Char} (hnb : noBorder p)
    (hpt : isPref p t = false) (hne : t ≠ []) :
    isPref p (t ++ (p ++ u)) = false := by
  by_contra hcon
  rw [Bool.not_eq_false] at hcon
  rcases isPref_append_cases hcon with h | ⟨hlt, _, hw⟩
  · rw [h] at hpt
    cases hpt
  · rw [List.take_append_of_le_length (Nat.sub_le _ _)] at hw
    exact hnb t.length hlt (List.length_pos.mpr hne) hw.symm

/-- With a border-free pattern, no occurrence can start strictly inside the
    pattern itself: a proper nonempty suffix of p never begins a new match. -/
theorem isPref_suffix_append_false {p t u : List Char} (hnb : noBorder p)
    (hsuf : t <:+ p) (hne : t ≠ []) (hnp : t ≠ p) :
    isPref p (t ++ u) = false := by
  by_contra hcon
  rw [Bool.not_eq_false] at hcon
  have hlen : t.length < p.length := by
    rcases Nat.lt_or_ge t.length p.length with h | h
    · exact h
    · exact absurd (hsuf.eq_of_length_le h) hnp
  rcases isPref_append_cases hcon with h | ⟨_, ht, _⟩
  · rw [isPref_iff_take] at h
    have hl := congrArg List.length h
    simp [List.length_take] at hl
    omega
  · have hdrop : t = p.drop (p.length - t.length) := List.suffix_iff_eq_drop.mp hsuf
    have ht0 : 0 < t.length := List.length_pos.mpr hne
    refine hnb (p.length - t.length) (by omega) (by omega) ?_
    rw [← hdrop, Nat.sub_sub_self (Nat.le_of_lt hlen), ← ht]

/-- Positions inside x contribute nothing when no nonempty suffix of x
    begins a match in x ++ y. -/
theorem countOcc_append_of_no_match {p x y : List Char}
    (h : ∀ t, t <:+ x → t ≠ [] → isPref p (t ++ y) = false) :
    countOcc p (x ++ y) = countOcc p y := by
  induction x with
  | nil => simp
  | cons c x ih =>
    have hhead : isPref p (c :: (x ++ y)) = false := h (c :: x) List.suffix_rfl (by simp)
    rw [List.cons_append, countOcc, hhead]
    simp only [Bool.false_eq_true, if_false, Nat.zero_add]
    exact ih fun t hs hn => h t (hs.trans (List.suffix_cons c x)) hn

/-- A border-free pattern occurs exactly once at the head of p ++ u plus
    whatever occurs inside u. -/
theorem countOcc_self_append {p u : List Char} (hp : p ≠ []) (hnb : noBorder p) :
    countOcc p (p ++ u) = 1 + countOcc p u := by
  cases hpe : p with
  | nil => exact absurd hpe hp
  | cons a p' =>
    rw [List.cons_append, countOcc, ← List.cons_append, ← hpe, isPref_append_self]
    simp only [if_true]
    have htail : countOcc p (p' ++ u) = countOcc p u := by
      refine countOcc_append_of_no_match fun t hs hn => ?_
      have hsp : t <:+ p := hs.trans (by rw [hpe]; exact List.suffix_cons a p')
      refine isPref_suffix_append_false hnb hsp hn fun heq => ?_
      have h1 := hsp.length_le
      have h2 := congrArg List.length heq
      rw [hpe] at h1 h2
      have h3 := hs.length_le
      simp at h2
      omega
    rw [htail]

/-- A match at a nonempty suffix forces a positive occurrence count. -/
theorem countOcc_pos_of_suffix {p t x : List Char} (hp : p ≠ [])
    (hs : t <:+ x) (hpref : isPref p t = true) : 0 < countOcc p x := by
  induction x with
  | nil =>
    rw [List.suffix_nil.mp hs] at hpref
    cases hpe : p with
    | nil => exact absurd hpe hp
    | cons a p' => rw [hpe, isPref] at hpref; cases hpref
  | cons c x ih =>
    rw [countOcc]
    rcases List.suffix_cons_iff.mp hs with h | h
    · rw [h] at hpref
      rw [hpref]
      simp
    · have := ih h
      cases hif : isPref p (c :: x)
      · simp only [Bool.false_eq_true, if_false, Nat.zero_add]
        omega
      · simp only [if_true]
        omega

/-- A zero occurrence count means no nonempty suffix begins a match. -/
theorem isPref_false_of_countOcc_zero {p x : List Char} (hp : p ≠ [])
    (h0 : countOcc p x = 0) : ∀ t, t <:+ x → t ≠ [] → isPref p t = false := by
  intro t hs _
  by_contra hc
  rw [Bool.not_eq_false] at hc
  have := countOcc_pos_of_suffix hp hs hc
  omega

/-- Conversely, a matchless list has a zero occurrence count. -/
theorem countOcc_zero_of_no_match {p x : List Char}
    (h : ∀ t, t <:+ x → t ≠ [] → isPref p t = false) : countOcc p x = 0 := by
  induction x with
  | nil => rfl
  | cons c x ih =>
    rw [countOcc, h (c :: x) List.suffix_rfl (by simp)]
    simp only [Bool.false_eq_true, if_false, Nat.zero_add]
    exact ih fun t hs hn => h t (hs.trans (List.suffix_cons c x)) hn

/-! ## Facts about the URL normalization helpers -/

theorem noBorder_embLit : noBorder embLit := by decide

theorem noBorder_apiVerLit : noBorder apiVerLit := by decide

theorem isPref_self (p : List Char) : isPref p p = true := by
  rw [isPref_iff_take, List.take_length]

/-- A pattern headed by a character absent from t never matches at t. -/
theorem isPref_false_of_head {a : Char} {p t : List Char}
    (h : ∀ c ∈ t, c ≠ a) (hne : t ≠ []) : isPref (a :: p) t = false := by
  cases t with
  | nil => exact absurd rfl hne
  | cons c t' =>
    have hca := h c (List.mem_cons_self c t')
    rw [isPref, if_neg fun hh => hca hh.symm]

/-- An occurrence cannot straddle the boundary between t and w when no
    prefix of w completes a proper suffix of the pattern. -/
theorem isPref_cross_false {p w t : List Char}
    (hpt : isPref p t = false) (hne : t ≠ [])
    (hcross : ∀ k, k < p.length → 0 < k → w.take k ≠ p.drop (p.length - k)) :
    isPref p (t ++ w) = false := by
  by_contra hcon
  rw [Bool.not_eq_false] at hcon
  rcases isPref_append_cases hcon with h | ⟨hlt, _, hw⟩
  · rw [h] at hpt
    cases hpt
  · have ht0 : 0 < t.length := List.length_pos.mpr hne
    have hc := hcross (p.length - t.length) (by omega) (by omega)
    rw [Nat.sub_sub_self (Nat.le_of_lt hlt)] at hc
    exact hc hw

/-- No prefix of the embeddings segment completes a proper suffix of the
    api-version parameter name. -/
theorem cross_emb_apiVer : ∀ k, k < apiVerLit.length → 0 < k →
    embLit.take k ≠ apiVerLit.drop (apiVerLit.length - k) := by decide

/-- The api-version name cannot start inside a region that ends where an
    embeddings segment begins. -/
theorem isPref_apiVer_cross_emb {t u : List Char}
    (hpt : isPref apiVerLit t = false) (hne : t ≠ []) :
    isPref apiVerLit (t ++ (embLit ++ u)) = false := by
  apply isPref_cross_false hpt hne
  intro k hk h0
  have h11 : embLit.length = 11 := rfl
  have h12 : apiVerLit.length = 12 := rfl
  rw [List.take_append_of_le_length (by omega)]
  exact cross_emb_apiVer k hk h0

/-- Suffixes of an append either live in the right part or extend a
    nonempty suffix of the left part. -/
theorem suffix_append_cases {t x y : List Char} (h : t <:+ x ++ y) :
    t <:+ y ∨ ∃ t', t' <:+ x ∧ t' ≠ [] ∧ t = t' ++ y := by
  induction x with
  | nil =>
    left
    simpa using h
  | cons c x ih =>
    rw [List.cons_append] at h
    rcases List.suffix_cons_iff.mp h with h | h
    · right
      exact ⟨c :: x, List.suffix_rfl, by simp, by rw [h, List.cons_append]⟩
    · rcases ih h with h' | ⟨t', hs, hn, he⟩
      · left
        exact h'
      · right
        exact ⟨t', hs.trans (List.suffix_cons c x), hn, he⟩

/-- The stripping matcher only fires where the embeddings literal is a prefix. -/
theorem embMatchAt_false {s : List Char} (h : isPref embLit s = false) :
    embMatchAt s = false := by
  unfold embMatchAt
  have h1 : (s == embLit) = false := by
    by_contra hb
    rw [Bool.not_eq_false, beq_iff_eq] at hb
    rw [hb, isPref_self] at h
    cases h
  have h2 : isPref (embLit ++ ['?']) s = false := by
    by_contra hb
    rw [Bool.not_eq_false] at hb
    rw [isPref_of_isPref_append hb] at h
    cases h
  rw [h1, h2]
  rfl

/-- The substitution of line 37 leaves a matchless string unchanged. -/
theorem stripEmbSuffix_eq_self {x : List Char} (h0 : countOcc embLit x = 0) :
    stripEmbSuffix x = x := by
  induction x with
  | nil => rfl
  | cons c x ih =>
    have hhead : isPref embLit (c :: x) = false :=
      isPref_false_of_countOcc_zero (by decide) h0 (c :: x) List.suffix_rfl (by simp)
    rw [stripEmbSuffix, embMatchAt_false hhead]
    simp only [Bool.false_eq_true, if_false]
    congr 1
    apply ih
    rw [countOcc, hhead] at h0
    simpa using h0

/-- The substitution removes exactly the appended tail when no earlier
    position matches and the tail itself matches. -/
theorem stripEmbSuffix_append {x s : List Char}
    (hno : ∀ t, t <:+ x → t ≠ [] → embMatchAt (t ++ s) = false)
    (hm : embMatchAt s = true) :
    stripEmbSuffix (x ++ s) = x := by
  induction x with
  | nil =>
    cases s with
    | nil => exact absurd hm (by decide)
    | cons c s' => simp [stripEmbSuffix, hm]
  | cons c x ih =>
    have hhead : embMatchAt (c :: (x ++ s)) = false := hno (c :: x) List.suffix_rfl (by simp)
    rw [List.cons_append, stripEmbSuffix, hhead]
    simp only [Bool.false_eq_true, if_false]
    congr 1
    exact ih fun t hs hn => hno t (hs.trans (List.suffix_cons c x)) hn

/-- The api-version matcher only fires where the parameter name is a prefix. -/
theorem apiVerAt_eq_none {s : List Char} (h : isPref apiVerLit s = false) :
    apiVerAt s = none := by
  unfold apiVerAt
  rw [h]
  rfl

/-- The search of line 40 finds nothing in a matchless string. -/
theorem findApiVer_eq_none {x : List Char} (h0 : countOcc apiVerLit x = 0) :
    findApiVer x = none := by
  induction x with
  | nil => rfl
  | cons c x ih =>
    have hhead : isPref apiVerLit (c :: x) = false :=
      isPref_false_of_countOcc_zero (by decide) h0 (c :: x) List.suffix_rfl (by simp)
    rw [findApiVer, apiVerAt_eq_none hhead]
    apply ih
    rw [countOcc, hhead] at h0
    simpa using h0

/-- Leftmost search skips a matchless region. -/
theorem findApiVer_append {x s : List Char}
    (hno : ∀ t, t <:+ x → t ≠ [] → isPref apiVerLit (t ++ s) = false) :
    findApiVer (x ++ s) = findApiVer s := by
  induction x with
  | nil => rfl
  | cons c x ih =>
    have hnone : apiVerAt (c :: (x ++ s)) = none := by
      rw [← List.cons_append]
      exact apiVerAt_eq_none (hno (c :: x) List.suffix_rfl (by simp))
    rw [List.cons_append, findApiVer, hnone]
    exact ih fun t hs hn => hno t (hs.trans (List.suffix_cons c x)) hn

/-- The greedy group takes the whole ampersand-free remainder. -/
theorem takeWhile_ne_amp {v : List Char} (h : '&' ∉ v) :
    v.takeWhile (· != '&') = v := by
  induction v with
  | nil => rfl
  | cons c v ih =>
    have hc : c ≠ '&' := fun hh => h (hh ▸ List.mem_cons_self c v)
    rw [List.takeWhile_cons_of_pos (by simp [hc]),
      ih fun hh => h (List.mem_cons_of_mem c hh)]

/-- At the parameter name itself the matcher captures the whole value. -/
theorem apiVerAt_self {v : List Char} (hv : v ≠ []) (ha : '&' ∉ v) :
    apiVerAt (apiVerLit ++ v) = some v := by
  unfold apiVerAt
  rw [isPref_append_self, List.drop_left, takeWhile_ne_amp ha, if_neg hv]
  rfl

/-- The search finds the value when the string starts with the parameter. -/
theorem findApiVer_self {v : List Char} (hv : v ≠ []) (ha : '&' ∉ v) :
    findApiVer (apiVerLit ++ v) = some v := by
  rw [show apiVerLit ++ v = 'a' :: (['p', 'i', '-', 'v', 'e', 'r', 's', 'i', 'o', 'n', '='] ++ v)
      from rfl]
  rw [findApiVer]
  rw [show 'a' :: (['p', 'i', '-', 'v', 'e', 'r', 's', 'i', 'o', 'n', '='] ++ v) =
      apiVerLit ++ v from rfl]
  rw [apiVerAt_self hv ha]

/-- rstrip is the identity when the last character is not a slash. -/
theorem rstripSlash_concat {x : List Char} {c : Char} (hc : c ≠ '/') :
    rstripSlash (x ++ [c]) = x ++ [c] := by
  have hrev : (x ++ [c]).reverse = c :: x.reverse := by simp
  rw [rstripSlash, hrev, List.dropWhile_cons_of_neg (by simp [hc]), ← hrev,
    List.reverse_reverse]

/-- rstrip is the identity on strings not ending in a slash. -/
theorem rstripSlash_no_slash_end {x : List Char} (h : x.getLast? ≠ some '/') :
    rstripSlash x = x := by
  rcases List.eq_nil_or_concat x with rfl | ⟨y, c, rfl⟩
  · rfl
  · rw [List.concat_eq_append]
    apply rstripSlash_concat
    intro hc
    subst hc
    rw [List.concat_eq_append, List.getLast?_concat] at h
    exact h rfl

/-- The one-character substring test is membership. -/
theorem containsSub_single {a : Char} {s : List Char} :
    containsSub [a] s = true ↔ a ∈ s := by
  induction s with
  | nil => simp [containsSub]
  | cons c s ih =>
    by_cases hac : a = c
    · subst hac
      simp [containsSub, isPref]
    · simp [containsSub, isPref, hac, ih, fun hh : a = c => hac hh]

theorem containsSub_single_false {a : Char} {s : List Char} (h : a ∉ s) :
    containsSub [a] s = false := by
  by_contra hb
  rw [Bool.not_eq_false] at hb
  exact h (containsSub_single.mp hb)

/-! ## The three configured-URL shapes of the normalization invariant -/

/-- No position inside a clean base can start a match of the stripping
    regex against an appended embeddings segment. -/
theorem embMatchAt_prefix_region {b : List Char} (u : List Char)
    (hbE : countOcc embLit b = 0) :
    ∀ t, t <:+ b → t ≠ [] → embMatchAt (t ++ (embLit ++ u)) = false := by
  intro t hs hn
  exact embMatchAt_false (isPref_append_pat_false noBorder_embLit
    (isPref_false_of_countOcc_zero (by decide) hbE t hs hn) hn)

/-- rstrip is the identity when a slash-free nonempty tail ends the string. -/
theorem rstripSlash_append_no_slash {x v : List Char} (hvN : v ≠ [])
    (hvS : '/' ∉ v) : rstripSlash (x ++ v) = x ++ v := by
  apply rstripSlash_no_slash_end
  rcases List.eq_nil_or_concat v with rfl | ⟨v', c, rfl⟩
  · exact absurd rfl hvN
  · rw [List.concat_eq_append, ← List.append_assoc, List.getLast?_concat]
    intro hsc
    apply hvS
    have hc : c = '/' := by injection hsc
    rw [List.concat_eq_append, hc]
    exact List.mem_append_right v' (List.mem_singleton.mpr rfl)

/-- An embeddings segment followed by a query matches the stripping regex. -/
theorem embMatchAt_query (u : List Char) : embMatchAt (embLit ++ ('?' :: u)) = true := by
  unfold embMatchAt
  have h : embLit ++ ('?' :: u) = (embLit ++ ['?']) ++ u := by simp
  rw [h, isPref_append_self, Bool.or_true]

/-- The api-version name never matches inside an embeddings segment
    followed by characters other than its head letter. -/
theorem no_apiVer_in_embq {w : List Char} (hwc : ∀ c ∈ w, c ≠ 'a') :
    ∀ t, t <:+ embLit ++ w → t ≠ [] → isPref apiVerLit t = false := by
  intro t hs hn
  have hsub := hs.subset
  apply isPref_false_of_head ?_ hn
  intro c hc
  rcases List.mem_append.mp (hsub hc) with h | h
  · exact (by decide : ∀ c ∈ embLit, c ≠ 'a') c h
  · exact hwc c h

/-- No api-version match anywhere in a clean base followed by an
    embeddings segment and an a-free tail. -/
theorem countOcc_apiVer_b_emb {b w : List Char} (hbA : countOcc apiVerLit b = 0)
    (hw : ∀ t, t <:+ embLit ++ w → t ≠ [] → isPref apiVerLit t = false) :
    countOcc apiVerLit (b ++ (embLit ++ w)) = 0 := by
  apply countOcc_zero_of_no_match
  intro t hs hn
  rcases suffix_append_cases hs with h | ⟨t', hs', hn', rfl⟩
  · exact hw t h hn
  · exact isPref_apiVer_cross_emb
      (isPref_false_of_countOcc_zero (by decide) hbA t' hs' hn') hn'

/-- The embeddings segment never matches inside the reconstructed query. -/
theorem no_emb_in_query {v : List Char} (hvS : '/' ∉ v) :
    ∀ t, t <:+ '?' :: (apiVerLit ++ v) → t ≠ [] → isPref embLit t = false := by
  intro t hs hn
  have hsub := hs.subset
  apply isPref_false_of_head ?_ hn
  intro c hc
  rcases List.mem_cons.mp (hsub hc) with h | h
  · subst h
    decide
  · rcases List.mem_append.mp h with h | h
    · exact (by decide : ∀ c ∈ apiVerLit, c ≠ '/') c h
    · exact fun hh => hvS (hh ▸ h)

/-- Exactly one embeddings segment in base plus segment plus clean tail. -/
theorem countOcc_emb_url {b u : List Char} (hbE : countOcc embLit b = 0)
    (hu : ∀ t, t <:+ u → t ≠ [] → isPref embLit t = false) :
    countOcc embLit (b ++ (embLit ++ u)) = 1 := by
  have h1 : countOcc embLit (b ++ (embLit ++ u)) = countOcc embLit (embLit ++ u) :=
    countOcc_append_of_no_match fun t hs hn =>
      isPref_append_pat_false noBorder_embLit
        (isPref_false_of_countOcc_zero (by decide) hbE t hs hn) hn
  rw [h1, countOcc_self_append (by decide) noBorder_embLit, countOcc_zero_of_no_match hu]

/-- Exactly one api-version parameter in the reconstructed URL. -/
theorem countOcc_apiVer_url {b v : List Char} (hbA : countOcc apiVerLit b = 0)
    (hvP : countOcc apiVerLit v = 0) :
    countOcc apiVerLit ((b ++ (embLit ++ ['?'])) ++ (apiVerLit ++ v)) = 1 := by
  have hx : countOcc apiVerLit (b ++ (embLit ++ ['?'])) = 0 :=
    countOcc_apiVer_b_emb hbA (no_apiVer_in_embq (by decide))
  have h1 : countOcc apiVerLit ((b ++ (embLit ++ ['?'])) ++ (apiVerLit ++ v)) =
      countOcc apiVerLit (apiVerLit ++ v) :=
    countOcc_append_of_no_match fun t hs hn =>
      isPref_append_pat_false noBorder_apiVerLit
        (isPref_false_of_countOcc_zero (by decide) hx t hs hn) hn
  rw [h1, countOcc_self_append (by decide) noBorder_apiVerLit, hvP]

/-- The derived base of a bare clean base is that base. -/
theorem deriveBase_bare {b : List Char} (hbE : countOcc embLit b = 0)
    (hbL : b.getLast? ≠ some '/') : deriveBase b = b := by
  unfold deriveBase
  rw [rstripSlash_no_slash_end hbL, stripEmbSuffix_eq_self hbE]

/-- The derived api-version of a bare clean base is absent. -/
theorem deriveApiVer_bare {b : List Char} (hbA : countOcc apiVerLit b = 0)
    (hbL : b.getLast? ≠ some '/') : deriveApiVer b = none := by
  unfold deriveApiVer
  rw [rstripSlash_no_slash_end hbL, findApiVer_eq_none hbA]

/-- rstrip leaves base plus embeddings segment alone. -/
theorem rstripSlash_b_emb (b : List Char) : rstripSlash (b ++ embLit) = b ++ embLit := by
  apply rstripSlash_no_slash_end
  have h : b ++ embLit = (b ++ ['/', 'e', 'm', 'b', 'e', 'd', 'd', 'i', 'n', 'g']) ++ ['s'] := by
    rw [List.append_assoc]
    rfl
  rw [h, List.getLast?_concat]
  simp

/-- The derived base of a full endpoint without query is the base. -/
theorem deriveBase_full {b : List Char} (hbE : countOcc embLit b = 0) :
    deriveBase (b ++ embLit) = b := by
  unfold deriveBase
  rw [rstripSlash_b_emb]
  apply stripEmbSuffix_append
  · intro t hs hn
    have h := embMatchAt_prefix_region [] hbE t hs hn
    rwa [List.append_nil] at h
  · decide

/-- The derived api-version of a full endpoint without query is absent. -/
theorem deriveApiVer_full {b : List Char} (hbA : countOcc apiVerLit b = 0) :
    deriveApiVer (b ++ embLit) = none := by
  unfold deriveApiVer
  rw [rstripSlash_b_emb]
  apply findApiVer_eq_none
  have h := countOcc_apiVer_b_emb (w := []) hbA (no_apiVer_in_embq (w := []) (by simp))
  rwa [List.append_nil] at h

/-- rstrip leaves the full endpoint with query alone. -/
theorem rstripSlash_raw3 {b v : List Char} (hvN : v ≠ []) (hvS : '/' ∉ v) :
    rstripSlash (b ++ (embLit ++ ('?' :: (apiVerLit ++ v)))) =
      b ++ (embLit ++ ('?' :: (apiVerLit ++ v))) := by
  have h : b ++ (embLit ++ ('?' :: (apiVerLit ++ v))) =
      (b ++ (embLit ++ ('?' :: apiVerLit))) ++ v := by simp
  rw [h]
  exact rstripSlash_append_no_slash hvN hvS

/-- The derived base of a full endpoint with query is the base. -/
theorem deriveBase_raw3 {b v : List Char} (hbE : countOcc embLit b = 0)
    (hvN : v ≠ []) (hvS : '/' ∉ v) :
    deriveBase (b ++ (embLit ++ ('?' :: (apiVerLit ++ v)))) = b := by
  unfold deriveBase
  rw [rstripSlash_raw3 hvN hvS]
  exact stripEmbSuffix_append (embMatchAt_prefix_region _ hbE) (embMatchAt_query _)

/-- The derived api-version of a full endpoint with query is the value. -/
theorem deriveApiVer_raw3 {b v : List Char} (hbA : countOcc apiVerLit b = 0)
    (hvN : v ≠ []) (hvS : '/' ∉ v) (hvA : '&' ∉ v) :
    deriveApiVer (b ++ (embLit ++ ('?' :: (apiVerLit ++ v)))) = some v := by
  unfold deriveApiVer
  rw [rstripSlash_raw3 hvN hvS]
  have hx : countOcc apiVerLit (b ++ (embLit ++ ['?'])) = 0 :=
    countOcc_apiVer_b_emb hbA (no_apiVer_in_embq (by decide))
  have hsplit : b ++ (embLit ++ ('?' :: (apiVerLit ++ v))) =
      (b ++ (embLit ++ ['?'])) ++ (apiVerLit ++ v) := by simp
  rw [hsplit]
  rw [findApiVer_append fun t hs hn =>
    isPref_append_pat_false noBorder_apiVerLit
      (isPref_false_of_countOcc_zero (by decide) hx t hs hn) hn]
  exact findApiVer_self hvN hvA

/-- Rebuilding from a clean base without captured version. -/
theorem buildEndpoint_none (b : List Char) : buildEndpoint b none = b ++ embLit := rfl

/-- Rebuilding from a clean base with a captured version appends exactly
    one query with the question-mark separator. -/
theorem buildEndpoint_some {b v : List Char} (hbQ : '?' ∉ b) :
    buildEndpoint b (some v) = b ++ (embLit ++ ('?' :: (apiVerLit ++ v))) := by
  unfold buildEndpoint
  have hmem : '?' ∉ b ++ embLit := by
    intro h
    rcases List.mem_append.mp h with h | h
    · exact hbQ h
    · revert h
      decide
  rw [containsSub_single_false hmem]
  simp

/-! ## Reduction of a full client call to its retry loop -/

/-- A configuration with a key, the default base URL and provider openai. -/
def pcW : PalaceConfig := ⟨some ['k'], none, none, some "openai".toList⟩

/-- An outcome environment in which every attempt fails to connect. -/
def outConn : Nat → AttemptOutcome := fun _ => .connErr

/-- With non-blank text and a configured key, the call's result, request
    timeouts and sleeps are exactly those of the retry loop. -/
theorem call_components (pc : PalaceConfig) (text : List Char)
    (mo : Option (List Char)) (out : Nat → AttemptOutcome)
    (htext : pyStrip text ≠ []) (hkey : (_get_openai_config pc).api_key ≠ []) :
    (get_embedding_openai pc text mo out).result =
      (retryLoop out EMBEDDING_MAX_RETRIES 0).result ∧
    (get_embedding_openai pc text mo out).requests.map (fun r => r.timeoutSecs) =
      (retryLoop out EMBEDDING_MAX_RETRIES 0).timeouts ∧
    (get_embedding_openai pc text mo out).sleeps =
      (retryLoop out EMBEDDING_MAX_RETRIES 0).sleeps := by
  have hguard : ¬(text = [] ∨ pyStrip text = []) := by
    rintro (h | h)
    · subst h
      exact htext rfl
    · exact htext h
  unfold get_embedding_openai
  rw [if_neg hguard, if_neg hkey]
  refine ⟨rfl, ?_, rfl⟩
  rw [List.map_map]
  exact List.map_id _

/-- The requests of a call all share the URL, headers and body built from
    the per-call configuration, model argument and text. -/
theorem call_requests (pc : PalaceConfig) (text : List Char)
    (mo : Option (List Char)) (out : Nat → AttemptOutcome)
    (htext : pyStrip text ≠ []) (hkey : (_get_openai_config pc).api_key ≠ []) :
    ∀ r ∈ (get_embedding_openai pc text mo out).requests,
      r.url = buildEndpoint (_get_openai_config pc).base_url
          (_get_openai_config pc).api_version ∧
      r.headers = buildHeaders (_get_openai_config pc).base_url
          (_get_openai_config pc).api_key ∧
      r.body = ⟨pyOr mo (_get_openai_config pc).model, _truncate_for_embedding text⟩ := by
  have hguard : ¬(text = [] ∨ pyStrip text = []) := by
    rintro (h | h)
    · subst h
      exact htext rfl
    · exact htext h
  intro r hr
  unfold get_embedding_openai at hr
  rw [if_neg hguard, if_neg hkey] at hr
  simp only [List.mem_map] at hr
  obtain ⟨t, _, rfl⟩ := hr
  exact ⟨rfl, rfl, rfl⟩

/-- Every run of the loop with fuel left issues at least one request. -/
theorem retryLoop_timeouts_ne_nil (out : Nat → AttemptOutcome) (fuel attempt : Nat) :
    (retryLoop out (fuel + 1) attempt).timeouts ≠ [] := by
  rw [retryLoop]
  cases out attempt with
  | resp status retryAfter data =>
    dsimp only
    split
    · simp
    · split
      · simp
      · split
        · split <;> simp
        · simp
  | connErr => simp
  | timedOut => simp
  | reqErr => simp
  | badJson => simp

/-- With non-blank text and a configured key the loop issues at least one
    request, so the request list is never empty. -/
theorem call_requests_ne_nil (pc : PalaceConfig) (text : List Char)
    (mo : Option (List Char)) (out : Nat → AttemptOutcome)
    (htext : pyStrip text ≠ []) (hkey : (_get_openai_config pc).api_key ≠ []) :
    (get_embedding_openai pc text mo out).requests ≠ [] := by
  have h := (call_components pc text mo out htext hkey).2.1
  intro hnil
  rw [hnil] at h
  have h0 : (retryLoop out EMBEDDING_MAX_RETRIES 0).timeouts = [] := by
    rw [← h]
    rfl
  exact retryLoop_timeouts_ne_nil out 2 0 h0

/-! ## C3: normalization of the configured endpoint URL -/

/-- C3 counterexample: for the configured URL https://h/v1?api-version=5
    the derived base keeps the embedded api-version parameter, and the
    reconstructed request URL carries the api-version parameter twice, so
    the claimed invariant fails for this configured endpoint. -/
theorem c3_counterexample :
    containsSub apiVerLit (deriveBase ("https://h/v1?api-version=5".toList)) = true ∧
    countOcc apiVerLit (requestUrl ("https://h/v1?api-version=5".toList)) = 2 := by
  constructor
  · decide
  · decide

/-- C3 (amended): for every clean base b (no embeddings segment, no
    api-version parameter, no question mark, not ending in a slash) and
    every nonempty version value v without slash, ampersand or nested
    parameter name, the three accepted configured forms (the bare base,
    the full endpoint, and the full endpoint with api-version query) all
    derive the base b, capture the version exactly when present, and
    rebuild a request URL containing exactly one embeddings segment and,
    when a version was configured, exactly one api-version parameter. -/
theorem c3_url_normalization {b v : List Char}
    (hbE : countOcc embLit b = 0) (hbA : countOcc apiVerLit b = 0)
    (hbQ : '?' ∉ b) (hbL : b.getLast? ≠ some '/')
    (hvN : v ≠ []) (hvS : '/' ∉ v) (hvA : '&' ∉ v)
    (hvP : countOcc apiVerLit v = 0) :
    (deriveBase b = b ∧ deriveApiVer b = none ∧
      requestUrl b = b ++ embLit ∧ countOcc embLit (requestUrl b) = 1) ∧
    (deriveBase (b ++ embLit) = b ∧ deriveApiVer (b ++ embLit) = none ∧
      requestUrl (b ++ embLit) = b ++ embLit ∧
      countOcc embLit (requestUrl (b ++ embLit)) = 1) ∧
    (deriveBase (b ++ (embLit ++ ('?' :: (apiVerLit ++ v)))) = b ∧
      deriveApiVer (b ++ (embLit ++ ('?' :: (apiVerLit ++ v)))) = some v ∧
      requestUrl (b ++ (embLit ++ ('?' :: (apiVerLit ++ v)))) =
        b ++ (embLit ++ ('?' :: (apiVerLit ++ v))) ∧
      countOcc embLit (requestUrl (b ++ (embLit ++ ('?' :: (apiVerLit ++ v))))) = 1 ∧
      countOcc apiVerLit (requestUrl (b ++ (embLit ++ ('?' :: (apiVerLit ++ v))))) = 1) := by
  have h1B := deriveBase_bare hbE hbL
  have h1A := deriveApiVer_bare hbA hbL
  have h1U : requestUrl b = b ++ embLit := by
    unfold requestUrl
    rw [h1B, h1A, buildEndpoint_none]
  have hcount1 : countOcc embLit (b ++ embLit) = 1 := by
    have h := countOcc_emb_url (u := []) hbE fun t hs hn => absurd (List.suffix_nil.mp hs) hn
    rwa [List.append_nil] at h
  have h2B := deriveBase_full hbE
  have h2A := deriveApiVer_full hbA
  have h2U : requestUrl (b ++ embLit) = b ++ embLit := by
    unfold requestUrl
    rw [h2B, h2A, buildEndpoint_none]
  have h3B := deriveBase_raw3 hbE hvN hvS
  have h3A := deriveApiVer_raw3 hbA hvN hvS hvA
  have h3U : requestUrl (b ++ (embLit ++ ('?' :: (apiVerLit ++ v)))) =
      b ++ (embLit ++ ('?' :: (apiVerLit ++ v))) := by
    unfold requestUrl
    rw [h3B, h3A, buildEndpoint_some hbQ]
  have hcount3E : countOcc embLit (b ++ (embLit ++ ('?' :: (apiVerLit ++ v)))) = 1 :=
    countOcc_emb_url hbE (no_emb_in_query hvS)
  have hcount3A : countOcc apiVerLit (b ++ (embLit ++ ('?' :: (apiVerLit ++ v)))) = 1 := by
    have hsplit : b ++ (embLit ++ ('?' :: (apiVerLit ++ v))) =
        (b ++ (embLit ++ ['?'])) ++ (apiVerLit ++ v) := by simp
    rw [hsplit]
    exact countOcc_apiVer_url hbA hvP
  refine ⟨⟨h1B, h1A, h1U, ?_⟩, ⟨h2B, h2A, h2U, ?_⟩, h3B, h3A, h3U, ?_, ?_⟩
  · rw [h1U]
    exact hcount1
  · rw [h2U]
    exact hcount1
  · rw [h3U]
    exact hcount3E
  · rw [h3U]
    exact hcount3A

/-- Witness for the amended C3 at a realistic managed-cloud deployment
    base and version value. -/
theorem c3_url_normalization_witness :
    deriveApiVer ("https://r.openai.azure.com/openai/deployments/e".toList ++
        (embLit ++ ('?' :: (apiVerLit ++ "2024-02-01".toList)))) =
      some ("2024-02-01".toList) ∧
    countOcc apiVerLit (requestUrl ("https://r.openai.azure.com/openai/deployments/e".toList ++
        (embLit ++ ('?' :: (apiVerLit ++ "2024-02-01".toList))))) = 1 := by
  have h := c3_url_normalization (b := "https://r.openai.azure.com/openai/deployments/e".toList)
    (v := "2024-02-01".toList) (by decide) (by decide) (by decide) (by decide)
    (by decide) (by decide) (by decide) (by decide)
  exact ⟨h.2.2.2.1, h.2.2.2.2.2.2⟩

/-! ## C1: retry, backoff and timeouts of the embedding call -/

/-- Outcomes: two rate-limit responses then a success carrying v. -/
def out429twice (v : List ℚ) : Nat → AttemptOutcome := fun i =>
  if i < 2 then .resp 429 none [] else .resp 200 none [some v]

/-- Outcomes: a 500 status on every attempt. -/
def out500 : Nat → AttemptOutcome := fun _ => .resp 500 none []

theorem retryLoop_500 : retryLoop out500 EMBEDDING_MAX_RETRIES 0 =
    ⟨none, [30, 60, 60], [1, 2]⟩ := by
  simp [retryLoop, out500, EMBEDDING_MAX_RETRIES, backoffDelay, EMBEDDING_RETRY_BASE_DELAY]

theorem retryLoop_429twice (v : List ℚ) (hv : v ≠ []) :
    retryLoop (out429twice v) EMBEDDING_MAX_RETRIES 0 = ⟨some v, [30, 60, 60], [1, 2]⟩ := by
  simp [retryLoop, out429twice, EMBEDDING_MAX_RETRIES, backoffDelay,
    EMBEDDING_RETRY_BASE_DELAY, hv]

/-- C1: with per-attempt outcomes [429, 429, 200 with a non-empty vector]
    the call returns that vector; with [500, 500, 500] it returns absent
    after exactly three attempts, sleeping the exponential backoff delays
    of 1s then 2s between the failed attempts; in both runs the
    per-attempt timeouts are 30s on the first attempt and 60s on each
    subsequent one. -/
theorem c1_retry_backoff (pc : PalaceConfig) (text : List Char)
    (mo : Option (List Char)) (v : List ℚ)
    (htext : pyStrip text ≠ [])
    (hkey : (_get_openai_config pc).api_key ≠ [])
    (hv : v ≠ []) :
    ((get_embedding_openai pc text mo (out429twice v)).result = some v ∧
      (get_embedding_openai pc text mo (out429twice v)).requests.map
        (fun r => r.timeoutSecs) = [30, 60, 60]) ∧
    ((get_embedding_openai pc text mo out500).result = none ∧
      (get_embedding_openai pc text mo out500).requests.map
        (fun r => r.timeoutSecs) = [30, 60, 60] ∧
      (get_embedding_openai pc text mo out500).sleeps = [1, 2]) := by
  obtain ⟨hr1, ht1, _⟩ := call_components pc text mo (out429twice v) htext hkey
  obtain ⟨hr2, ht2, hs2⟩ := call_components pc text mo out500 htext hkey
  rw [retryLoop_429twice v hv] at hr1 ht1
  rw [retryLoop_500] at hr2 ht2 hs2
  exact ⟨⟨hr1, ht1⟩, hr2, ht2, hs2⟩

/-- Witness for C1 at the concrete configuration pcW with vector [1]. -/
theorem c1_retry_backoff_witness :
    (get_embedding_openai pcW ['h', 'i'] none (out429twice [1])).result = some [1] ∧
    (get_embedding_openai pcW ['h', 'i'] none out500).result = none ∧
    (get_embedding_openai pcW ['h', 'i'] none out500).sleeps = [1, 2] := by
  have h := c1_retry_backoff pcW ['h', 'i'] none [1] (by decide) (by decide) (by decide)
  exact ⟨h.1.1, h.2.1, h.2.2.2⟩

/-! ## C5: blank input short-circuits -/

/-- C5: empty or whitespace-only text yields an absent result and no
    request, for every configuration, model argument and network
    environment. -/
theorem c5_blank_input (pc : PalaceConfig) (text : List Char)
    (mo : Option (List Char)) (out : Nat → AttemptOutcome)
    (h : pyStrip text = []) :
    (get_embedding_openai pc text mo out).result = none ∧
    (get_embedding_openai pc text mo out).requests = [] := by
  unfold get_embedding_openai
  rw [if_pos (Or.inr h)]
  exact ⟨rfl, rfl⟩

/-- Witness for C5 on a whitespace-only text. -/
theorem c5_blank_input_witness :
    (get_embedding_openai pcW [' ', '\t', ' '] none outConn).result = none ∧
    (get_embedding_openai pcW [' ', '\t', ' '] none outConn).requests = [] :=
  c5_blank_input pcW [' ', '\t', ' '] none outConn (by decide)

/-! ## C4: deterministic truncation of the request text -/

/-- C4: every issued request's body carries exactly the truncated text;
    text not exceeding the budget passes unchanged; longer text is cut to
    exactly 8000 characters ending in the literal marker; truncation is a
    pure function of the text, hence the same input always truncates
    identically. -/
theorem c4_truncation (pc : PalaceConfig) (t : List Char) (mo : Option (List Char))
    (out : Nat → AttemptOutcome) :
    (∀ r ∈ (get_embedding_openai pc t mo out).requests,
      r.body.input = _truncate_for_embedding t) ∧
    (t.length ≤ DEFAULT_MAX_EMBEDDING_CHARS → _truncate_for_embedding t = t) ∧
    (DEFAULT_MAX_EMBEDDING_CHARS < t.length →
      (_truncate_for_embedding t).length = DEFAULT_MAX_EMBEDDING_CHARS ∧
      truncMarker <:+ _truncate_for_embedding t) := by
  refine ⟨?_, ?_, ?_⟩
  · intro r hr
    unfold get_embedding_openai at hr
    split at hr
    · simp at hr
    · split at hr
      · simp at hr
      · simp only [List.mem_map] at hr
        obtain ⟨tm, _, rfl⟩ := hr
        rfl
  · intro h
    unfold _truncate_for_embedding
    rw [if_pos h]
  · intro h
    unfold _truncate_for_embedding
    rw [if_neg (by omega)]
    refine ⟨?_, List.suffix_append _ _⟩
    rw [List.length_append, List.length_take,
      Nat.min_eq_left (by have hm : truncMarker.length = 26 := rfl; omega)]
    exact Nat.sub_add_cancel (by decide)

/-- Witness for C4: a 9000-character text truncates to exactly 8000
    characters ending in the marker; a short text passes unchanged. -/
theorem c4_truncation_witness :
    _truncate_for_embedding ['h', 'i'] = ['h', 'i'] ∧
    (_truncate_for_embedding (List.replicate 9000 'a')).length =
      DEFAULT_MAX_EMBEDDING_CHARS ∧
    truncMarker <:+ _truncate_for_embedding (List.replicate 9000 'a') := by
  have hlong : DEFAULT_MAX_EMBEDDING_CHARS < (List.replicate 9000 'a').length := by
    rw [List.length_replicate]
    decide
  have h := (c4_truncation pcW (List.replicate 9000 'a') none outConn).2.2 hlong
  exact ⟨(c4_truncation pcW ['h', 'i'] none outConn).2.1 (by decide), h.1, h.2⟩

/-! ## C10: the empty-string model argument -/

/-- C10: an empty-string model argument behaves exactly like passing no
    argument — the whole call result is identical — and the issued
    requests carry the configured model; requests are actually issued. -/
theorem c10_empty_model_override (pc : PalaceConfig) (text : List Char)
    (out : Nat → AttemptOutcome)
    (htext : pyStrip text ≠ []) (hkey : (_get_openai_config pc).api_key ≠ []) :
    get_embedding_openai pc text (some []) out = get_embedding_openai pc text none out ∧
    (∀ r ∈ (get_embedding_openai pc text (some []) out).requests,
      r.body.model = (_get_openai_config pc).model) ∧
    (get_embedding_openai pc text (some []) out).requests ≠ [] := by
  refine ⟨rfl, ?_, call_requests_ne_nil pc text (some []) out htext hkey⟩
  intro r hr
  have hb := ((call_requests pc text (some []) out htext hkey) r hr).2.2
  rw [hb]
  rfl

/-- Witness for C10 at the concrete configuration pcW. -/
theorem c10_empty_model_override_witness :
    get_embedding_openai pcW ['h', 'i'] (some []) outConn =
      get_embedding_openai pcW ['h', 'i'] none outConn ∧
    (get_embedding_openai pcW ['h', 'i'] (some []) outConn).requests ≠ [] := by
  have h := c10_empty_model_override pcW ['h', 'i'] outConn (by decide) (by decide)
  exact ⟨h.1, h.2.2⟩

/-! ## C9: authentication dialect of the embedding request -/

/-- C9: on a managed-cloud base endpoint every issued request carries the
    api-key header and no bearer header; on any other base endpoint it
    carries the bearer header and no api-key header; requests are issued. -/
theorem c9_auth_dialect (pc : PalaceConfig) (text : List Char)
    (mo : Option (List Char)) (out : Nat → AttemptOutcome)
    (htext : pyStrip text ≠ []) (hkey : (_get_openai_config pc).api_key ≠ []) :
    (get_embedding_openai pc text mo out).requests ≠ [] ∧
    ∀ r ∈ (get_embedding_openai pc text mo out).requests,
      (isAzureHost (_get_openai_config pc).base_url = true →
        r.headers.api_key_header = some (_get_openai_config pc).api_key ∧
        r.headers.authorization = none) ∧
      (isAzureHost (_get_openai_config pc).base_url = false →
        r.headers.authorization = some (bearerOf (_get_openai_config pc).api_key) ∧
        r.headers.api_key_header = none) := by
  refine ⟨call_requests_ne_nil pc text mo out htext hkey, ?_⟩
  intro r hr
  have hh := ((call_requests pc text mo out htext hkey) r hr).2.1
  constructor
  · intro haz
    rw [hh]
    unfold buildHeaders
    rw [if_pos haz]
    exact ⟨rfl, rfl⟩
  · intro haz
    rw [hh]
    unfold buildHeaders
    rw [if_neg (by rw [haz]; exact Bool.false_ne_true)]
    exact ⟨rfl, rfl⟩

/-- A managed-cloud style configuration for the C9 witness. -/
def pcAzure : PalaceConfig :=
  ⟨some ['k'],
    some "https://r.openai.azure.com/openai/deployments/e/embeddings?api-version=1".toList,
    none, some "openai".toList⟩

/-- Witness for C9: the first request of a call carries the bearer header
    on the default endpoint and the api-key header on the managed-cloud
    endpoint. -/
theorem c9_auth_dialect_witness :
    ((get_embedding_openai pcW ['h', 'i'] none outConn).requests.head?.map fun r =>
      (r.headers.authorization, r.headers.api_key_header)) =
      some (some (bearerOf ['k']), none) ∧
    ((get_embedding_openai pcAzure ['h', 'i'] none outConn).requests.head?.map fun r =>
      (r.headers.authorization, r.headers.api_key_header)) =
      some (none, some ['k']) := by
  constructor
  · rcases hreq : (get_embedding_openai pcW ['h', 'i'] none outConn).requests with _ | ⟨r, rs⟩
    · exact absurd hreq (c9_auth_dialect pcW ['h', 'i'] none outConn (by decide) (by decide)).1
    · have hr : r ∈ (get_embedding_openai pcW ['h', 'i'] none outConn).requests := by
        rw [hreq]
        exact List.mem_cons_self r rs
      have h := ((c9_auth_dialect pcW ['h', 'i'] none outConn (by decide) (by decide)).2
        r hr).2 (by decide)
      simp only [List.head?_cons, Option.map_some']
      rw [h.1, h.2]
      rfl
  · rcases hreq : (get_embedding_openai pcAzure ['h', 'i'] none outConn).requests with _ | ⟨r, rs⟩
    · exact absurd hreq
        (c9_auth_dialect pcAzure ['h', 'i'] none outConn (by decide) (by decide)).1
    · have hr : r ∈ (get_embedding_openai pcAzure ['h', 'i'] none outConn).requests := by
        rw [hreq]
        exact List.mem_cons_self r rs
      have h := ((c9_auth_dialect pcAzure ['h', 'i'] none outConn (by decide) (by decide)).2
        r hr).1 (by decide)
      simp only [List.head?_cons, Option.map_some']
      rw [h.1, h.2]
      rfl

/-! ## C2: the health check -/

/-- C2 counterexample: with the default (non managed-cloud) base endpoint
    and a configured key, a 404 from the models listing yields
    available = true, although the claim demands false for every dialect
    other than the managed-cloud one. -/
theorem c2_counterexample :
    isAzureHost (_get_openai_config pcW).base_url = false ∧
    (is_openai_available pcW (.resp 404)).available = true := by
  constructor
  · decide
  · decide

/-- C2 (amended): is_available returns false with no network call when no
    key is configured; otherwise it issues exactly one GET against the
    models-listing endpoint and returns true exactly on HTTP 200 or HTTP
    404 — for every dialect, not only the managed-cloud one — and false
    on any connection failure; no retries are performed. -/
theorem c2_health_check (pc : PalaceConfig) (out : HealthOutcome) :
    ((_get_openai_config pc).api_key = [] →
      (is_openai_available pc out).available = false ∧
      (is_openai_available pc out).requests = []) ∧
    ((_get_openai_config pc).api_key ≠ [] →
      (is_openai_available pc out).requests = [healthReq pc] ∧
      (∀ s, out = .resp s →
        (is_openai_available pc out).available = (s == 200 || s == 404)) ∧
      (out = .netErr → (is_openai_available pc out).available = false)) := by
  constructor
  · intro h
    unfold is_openai_available
    rw [if_pos h]
    exact ⟨rfl, rfl⟩
  · intro h
    unfold is_openai_available
    rw [if_neg h]
    refine ⟨?_, ?_, ?_⟩
    · cases out <;> rfl
    · rintro s rfl
      rfl
    · rintro rfl
      rfl

/-- Witness for the amended C2: a 404 is available on the default
    endpoint, a network error is not, and a missing key issues no GET. -/
theorem c2_health_check_witness :
    (is_openai_available pcW (.resp 404)).available = true ∧
    (is_openai_available pcW .netErr).available = false ∧
    (is_openai_available ⟨none, none, none, none⟩ (.resp 200)).requests = [] := by
  refine ⟨?_, ?_, ?_⟩
  · have h := ((c2_health_check pcW (.resp 404)).2 (by decide)).2.1 404 rfl
    rw [h]
    rfl
  · exact ((c2_health_check pcW .netErr).2 (by decide)).2.2 rfl
  · exact ((c2_health_check ⟨none, none, none, none⟩ (.resp 200)).1 (by decide)).2

/-! ## C6: the provider router -/

/-- C6: the router delegates to the remote client exactly when the
    configuration read during the call sets embedding_provider to openai,
    passing text and model through unchanged, and to the local backend for
    any other or absent value; the second of two successive calls depends
    only on the configuration it itself read, so a changed provider takes
    effect on the very next call. -/
theorem c6_router (pc pc1 pc2 : PalaceConfig) (t t1 t2 : List Char)
    (m m1 m2 : Option (List Char)) :
    patched_get_embedding pc t m =
      (if pc.embedding_provider = some ("openai".toList) then Delegation.remote t m
        else Delegation.localBackend t m) ∧
    (routerTwoCalls pc1 pc2 t1 t2 m1 m2).2 = patched_get_embedding pc2 t2 m2 := by
  constructor
  · unfold patched_get_embedding
    cases hp : pc.embedding_provider with
    | none =>
      rw [Option.getD_none, if_neg (by decide), if_neg (by simp)]
    | some p =>
      rw [Option.getD_some]
      by_cases hpe : p = "openai".toList
      · subst hpe
        rw [if_pos rfl, if_pos rfl]
      · rw [if_neg hpe, if_neg fun hh => hpe (Option.some.inj hh)]
  · rfl

/-! ## C8: idempotent installation of the hook -/

theorem install_hook_patched (s : HookState) : (install_hook s).patched = true := by
  unfold install_hook
  split
  · next h => exact h
  · rfl

theorem install_hook_of_patched {s : HookState} (h : s.patched = true) :
    install_hook s = s := by
  unfold install_hook
  rw [if_pos h]

/-- C8: installing the hook twice — or any number of times beyond once —
    has the same effect as installing it once: the guard turns every later
    call into a no-op, so the three module slots are wrapped exactly once
    and no side effect is repeated. -/
theorem c8_install_idempotent (s : HookState) (n : Nat) :
    install_hook (install_hook s) = install_hook s ∧
    install_hook^[n + 1] s = install_hook s ∧
    (install_hook s).patched = true := by
  have hid : install_hook (install_hook s) = install_hook s :=
    install_hook_of_patched (install_hook_patched s)
  refine ⟨hid, ?_, install_hook_patched s⟩
  induction n with
  | zero => rfl
  | succ n ih =>
    rw [Function.iterate_succ_apply', ih, hid]

/-! ## C7: empty 200 responses are retried, never returned -/

/-- A 200 response whose parsed body yields no usable vector: empty data
    array, missing embedding field in the first entry, or empty vector. -/
def isEmptySuccess : AttemptOutcome → Bool
  | .resp status _ data =>
    status == 200 &&
      (match data.head? with
       | none => true
       | some none => true
       | some (some v) => v.isEmpty)
  | _ => false

/-- Any vector the loop returns passed the non-emptiness test. -/
theorem retryLoop_result_ne_nil (out : Nat → AttemptOutcome) (fuel attempt : Nat)
    (v : List ℚ) (h : (retryLoop out fuel attempt).result = some v) : v ≠ [] := by
  induction fuel generalizing attempt with
  | zero => simp [retryLoop] at h
  | succ fuel ih =>
    rw [retryLoop] at h
    cases hout : out attempt with
    | resp status retryAfter data =>
      rw [hout] at h
      dsimp only at h
      by_cases h429 : status = 429
      · rw [if_pos h429] at h
        exact ih (attempt + 1) h
      · rw [if_neg h429] at h
        by_cases h200 : status ≠ 200
        · rw [if_pos h200] at h
          exact ih (attempt + 1) h
        · rw [if_neg h200] at h
          cases hd : data.head? with
          | none =>
            rw [hd] at h
            dsimp only at h
            exact ih (attempt + 1) h
          | some ov =>
            cases ov with
            | none =>
              rw [hd] at h
              dsimp only at h
              exact ih (attempt + 1) h
            | some w =>
              rw [hd] at h
              dsimp only at h
              by_cases hw : w = []
              · rw [if_pos hw] at h
                exact ih (attempt + 1) h
              · rw [if_neg hw] at h
                have hveq : w = v := Option.some.inj h
                subst hveq
                exact hw
    | connErr =>
      rw [hout] at h
      exact ih (attempt + 1) h
    | timedOut =>
      rw [hout] at h
      exact ih (attempt + 1) h
    | reqErr =>
      rw [hout] at h
      exact ih (attempt + 1) h
    | badJson =>
      rw [hout] at h
      exact ih (attempt + 1) h

/-- One attempt that sees an empty success continues into the next attempt
    after issuing its request. -/
theorem retryLoop_step_empty (out : Nat → AttemptOutcome) (fuel attempt : Nat)
    (h : isEmptySuccess (out attempt) = true) :
    (retryLoop out (fuel + 1) attempt).result = (retryLoop out fuel (attempt + 1)).result ∧
    (retryLoop out (fuel + 1) attempt).timeouts.length =
      (retryLoop out fuel (attempt + 1)).timeouts.length + 1 := by
  rw [retryLoop]
  cases hout : out attempt with
  | resp status retryAfter data =>
    rw [hout] at h
    unfold isEmptySuccess at h
    rw [Bool.and_eq_true] at h
    obtain ⟨hs, hx⟩ := h
    have hs' : status = 200 := by simpa using hs
    subst hs'
    dsimp only
    rw [if_neg (show ¬(200 = 429) by decide), if_neg (show ¬(200 ≠ 200) by decide)]
    cases hd : data.head? with
    | none =>
      dsimp only
      exact ⟨rfl, by simp⟩
    | some ov =>
      cases ov with
      | none =>
        dsimp only
        exact ⟨rfl, by simp⟩
      | some w =>
        rw [hd] at hx
        have hw : w = [] := by simpa using hx
        subst hw
        dsimp only
        rw [if_pos rfl]
        exact ⟨rfl, by simp⟩
  | connErr =>
    dsimp only
    exact ⟨rfl, by simp⟩
  | timedOut =>
    dsimp only
    exact ⟨rfl, by simp⟩
  | reqErr =>
    dsimp only
    exact ⟨rfl, by simp⟩
  | badJson =>
    dsimp only
    exact ⟨rfl, by simp⟩

/-- Three empty successes exhaust the attempts: absent result after
    exactly three issued requests. -/
theorem retryLoop_all_empty (out : Nat → AttemptOutcome)
    (h : ∀ i, i < EMBEDDING_MAX_RETRIES → isEmptySuccess (out i) = true) :
    (retryLoop out EMBEDDING_MAX_RETRIES 0).result = none ∧
    (retryLoop out EMBEDDING_MAX_RETRIES 0).timeouts.length = 3 := by
  have h0 := retryLoop_step_empty out 2 0 (h 0 (by decide))
  have h1 := retryLoop_step_empty out 1 1 (h 1 (by decide))
  have h2 := retryLoop_step_empty out 0 2 (h 2 (by decide))
  norm_num at h0 h1 h2
  constructor
  · exact h0.1.trans (h1.1.trans (h2.1.trans rfl))
  · show (retryLoop out 3 0).timeouts.length = 3
    rw [h0.2, h1.2, h2.2]
    rfl

/-- Outcomes: an empty 200 on the first attempt, then a good vector. -/
def outEmptyThenGood (v : List ℚ) : Nat → AttemptOutcome := fun i =>
  if i = 0 then .resp 200 none [] else .resp 200 none [some v]

/-- Outcomes: an empty 200 on every attempt. -/
def outEmpty : Nat → AttemptOutcome := fun _ => .resp 200 none []

theorem retryLoop_empty_then_good (v : List ℚ) (hv : v ≠ []) :
    retryLoop (outEmptyThenGood v) EMBEDDING_MAX_RETRIES 0 = ⟨some v, [30, 60], [1]⟩ := by
  simp [retryLoop, outEmptyThenGood, backoffDelay, EMBEDDING_RETRY_BASE_DELAY,
    EMBEDDING_MAX_RETRIES, hv]

/-- C7: a 200 response whose body yields an empty embedding array or an
    empty first vector is never returned as success — every successful
    result is non-empty; when all three attempts see such responses the
    call returns absent after exactly three requests; and an empty success
    followed by a good response yields the good vector on the next
    attempt. -/
theorem c7_empty_success_retried (pc : PalaceConfig) (text : List Char)
    (mo : Option (List Char)) (out : Nat → AttemptOutcome) (v : List ℚ)
    (htext : pyStrip text ≠ []) (hkey : (_get_openai_config pc).api_key ≠ [])
    (hv : v ≠ []) :
    (∀ w, (get_embedding_openai pc text mo out).result = some w → w ≠ []) ∧
    ((∀ i, i < EMBEDDING_MAX_RETRIES → isEmptySuccess (out i) = true) →
      (get_embedding_openai pc text mo out).result = none ∧
      (get_embedding_openai pc text mo out).requests.length = 3) ∧
    ((get_embedding_openai pc text mo (outEmptyThenGood v)).result = some v ∧
      (get_embedding_openai pc text mo (outEmptyThenGood v)).requests.length = 2) := by
  obtain ⟨hr, ht, _⟩ := call_components pc text mo out htext hkey
  obtain ⟨hr2, ht2, _⟩ := call_components pc text mo (outEmptyThenGood v) htext hkey
  have hlen := congrArg List.length ht
  have hlen2 := congrArg List.length ht2
  rw [List.length_map] at hlen hlen2
  refine ⟨?_, ?_, ?_, ?_⟩
  · intro w hw
    rw [hr] at hw
    exact retryLoop_result_ne_nil out EMBEDDING_MAX_RETRIES 0 w hw
  · intro hall
    obtain ⟨hnone, hl3⟩ := retryLoop_all_empty out hall
    exact ⟨hr.trans hnone, hlen.trans hl3⟩
  · rw [hr2, retryLoop_empty_then_good v hv]
  · rw [hlen2, retryLoop_empty_then_good v hv]
    rfl

/-- Witness for C7: three empty 200 responses yield absent after three
    requests, and empty-then-good yields the good vector. -/
theorem c7_empty_success_retried_witness :
    (get_embedding_openai pcW ['h', 'i'] none outEmpty).result = none ∧
    (get_embedding_openai pcW ['h', 'i'] none outEmpty).requests.length = 3 ∧
    (get_embedding_openai pcW ['h', 'i'] none (outEmptyThenGood [1])).result = some [1] := by
  have h := c7_empty_success_retried pcW ['h', 'i'] none outEmpty [1]
    (by decide) (by decide) (by decide)
  obtain ⟨ha, hb⟩ := h.2.1 fun i _ => rfl
  exact ⟨ha, hb, h.2.2.1⟩

end Paw
